import Mathlib

/-!
Verification of the bilibili2txt coordination layer against its specification.

The embedding covers:
* the job selector of `src/server/server_out_queue.py` (`out_queue`, both the
  `less_than` and `better_greater_than` policies, the removal step, and the
  retry loop of the surrounding `while True`);
* the dispatch pool of `src/libs/ai_utils.py` (`BatchTaskProcessor`: task
  queue accounting, `_worker_loop`, `add_task`, `wait_and_stop`) and the
  rate limiter (`RateLimiter.wait_if_needed`);
* the repository transaction of `src/libs/git_utils.py`
  (`git_repo_transaction`).

Machine integers do not occur; Python numbers are modelled as `Int`
(durations) and exact rationals `ℚ` (wall-clock times).
-/

namespace Bili

/-! ## Job selector (`src/server/server_out_queue.py`)

A `Line` is one stripped line of a job file: either it fails `json.loads`
(`raw`), or it parses to a record whose `"duration"` field is read
(`item`).  A job file is its name together with its list of lines; the
selector scans the sorted file list in order, each file top to bottom. -/

inductive Line where
  | raw (s : String)
  | item (duration : Int)
deriving DecidableEq, Repr

abbrev JobFile := String × List Line

/-- The inner loop of the `less_than` branch (lines 81–97): scan the lines
of one file, return the first line that is unparsable or has
`duration < duration_limit`, with its index. -/
def scanLinesLT (limit : Int) : List Line → Nat → Option (Nat × Line)
  | [], _ => none
  | Line.raw s :: _, i => some (i, Line.raw s)
  | Line.item d :: rest, i =>
      if d < limit then some (i, Line.item d) else scanLinesLT limit rest (i + 1)

/-- The `less_than` policy (lines 73–99): files in order, each file top to
bottom, first eligible line wins; `none` when no file has one. -/
def lessThanScan (limit : Int) : List JobFile → Option (String × Nat × Line)
  | [] => none
  | (name, lines) :: rest =>
      match scanLinesLT limit lines 0 with
      | some (i, l) => some (name, i, l)
      | none => lessThanScan limit rest

/-- One step of the inner loop of the `better_greater_than` branch
(lines 111–131): a raw line or an item with `duration > duration_limit`
is selected; otherwise the line is remembered as the fallback
(`second_select_*`) if no fallback was recorded yet (the fallback state is
threaded through the whole scan, across files).  Returns the selection (if
any) and the updated fallback. -/
def scanLinesBGT (limit : Int) (name : String) :
    List Line → Nat → Option (String × Nat × Line) →
    Option (String × Nat × Line) × Option (String × Nat × Line)
  | [], _, second => (none, second)
  | Line.raw s :: _, i, second => (some (name, i, Line.raw s), second)
  | Line.item d :: rest, i, second =>
      if d > limit then (some (name, i, Line.item d), second)
      else
        scanLinesBGT limit name rest (i + 1)
          (if second.isSome then second else some (name, i, Line.item d))

/-- The file loop of the `better_greater_than` branch (lines 108–133). -/
def bgtScan (limit : Int) :
    List JobFile → Option (String × Nat × Line) →
    Option (String × Nat × Line) × Option (String × Nat × Line)
  | [], second => (none, second)
  | (name, lines) :: rest, second =>
      match scanLinesBGT limit name lines 0 second with
      | (some sel, second') => (some sel, second')
      | (none, second') => bgtScan limit rest second'

/-- Outcome of the `better_greater_than` selection (lines 100–141).
`select = none` models the Python sentinel `select_file == ""` (no file was
ever recorded); `secondFound` is the flag set by the fallback branch. -/
structure BGTResult where
  found : Bool
  secondFound : Bool
  select : Option (String × Nat × Line)
deriving DecidableEq, Repr

/-- The `better_greater_than` branch including the fallback (lines 135–141):
when the scan found nothing, the fallback is copied into the selection and
`found` is set to `True` unconditionally — even when the fallback itself is
still the empty sentinel. -/
def bgtSelect (limit : Int) (files : List JobFile) : BGTResult :=
  match bgtScan limit files none with
  | (some sel, _) => ⟨true, false, some sel⟩
  | (none, second) => ⟨true, true, second⟩

/-- Whether a line triggers selection in the `less_than` inner loop: an
unparsable line always does, a parsed item does iff its duration is below
the limit (line 92). -/
def selLT (limit : Int) : Line → Bool
  | .raw _ => true
  | .item d => decide (d < limit)

/-- Whether a line triggers selection in the `better_greater_than` inner
loop: an unparsable line always does, a parsed item does iff its duration
exceeds the limit (line 122). -/
def selBGT (limit : Int) : Line → Bool
  | .raw _ => true
  | .item d => decide (d > limit)

/-- The removal step (lines 155–163): re-read the selected file, drop the
selected line, delete the file when nothing remains, else rewrite it. -/
def removeLineAt (files : List JobFile) (name : String) (idx : Nat) : List JobFile :=
  files.filterMap fun f =>
    if f.1 = name then
      let ls' := f.2.take idx ++ f.2.drop (idx + 1)
      if ls' = [] then none else some (f.1, ls')
    else some f

/-! The outer `while True` loop of `out_queue` (lines 64–186).  One
iteration either breaks out of the loop (empty directory, or `found`
false), returns `found` after a successful push, or retries (push rejected
at line 178, or any exception caught at line 183 — in particular the
`AttributeError` raised at line 155 when `select_file` is still the empty
string).  `reset_repo` discards local changes, so a retrying iteration
starts from the same file state. -/

inductive StepResult where
  | success
  | retry
  | emptyBreak
  | notFoundBreak
deriving DecidableEq, Repr

/-- One iteration of `out_queue` under `better_greater_than`; `pushOk`
models whether `push_changes` succeeds this iteration. -/
def outQueueStepBGT (limit : Int) (files : List JobFile) (pushOk : Bool) : StepResult :=
  if files = [] then .emptyBreak
  else
    let r := bgtSelect limit files
    if r.found then
      match r.select with
      | none => .retry
      | some _ => if pushOk then .success else .retry
    else .notFoundBreak

/-- One iteration of `out_queue` under `less_than`. -/
def outQueueStepLT (limit : Int) (files : List JobFile) (pushOk : Bool) : StepResult :=
  if files = [] then .emptyBreak
  else
    match lessThanScan limit files with
    | some _ => if pushOk then .success else .retry
    | none => .notFoundBreak

/-- Iterating the `better_greater_than` loop: a retry re-enters the loop on
the same file state (the local mutation was never pushed and `reset_repo`
restores the synchronized state).  `none` after `n` iterations means the
loop is still running. -/
def outQueueLoopBGT (limit : Int) (files : List JobFile) (pushOk : Bool) :
    Nat → Option StepResult
  | 0 => none
  | n + 1 =>
      match outQueueStepBGT limit files pushOk with
      | .retry => outQueueLoopBGT limit files pushOk n
      | r => some r

/-- The value `out_queue` returns once its loop ends: `True` after a
successful push (line 182), Python `None` from either `break`
(lines 70 and 170 fall out of the loop), modelled as `Option Bool`. -/
def outQueueReturn : StepResult → Option Bool
  | .success => some true
  | .emptyBreak => none
  | .notFoundBreak => none
  | .retry => none

/-- The `__main__` guard (lines 188–192): exit 0 when `out_queue()` is
truthy, exit 1 otherwise (Python `None` is falsy). -/
def mainExitCode (r : Option Bool) : Nat :=
  match r with
  | some true => 0
  | _ => 1

/-! ## Dispatch pool (`src/libs/ai_utils.py`, `BatchTaskProcessor`)

`self.task_queue = queue.Queue()` (line 475) is a CPython `queue.Queue`
with the default `maxsize = 0`.  Its bookkeeping: `put` appends and
increments `unfinished_tasks`, `get` pops, `task_done` decrements, and
`join` returns exactly when `unfinished_tasks` reaches zero.  `put` blocks
only when `0 < maxsize` and the queue already holds `maxsize` items. -/

/-- The task-queue state: pending items and the `unfinished_tasks`
counter. Tasks are `(task_id, content, extra_info)` tuples, kept abstract. -/
structure QState (α : Type) where
  queue : List α
  unfinished : Nat
deriving DecidableEq, Repr

/-- `queue.Queue.put`: append and count one more unfinished task. -/
def qput {α : Type} (s : QState α) (t : α) : QState α :=
  ⟨s.queue ++ [t], s.unfinished + 1⟩

/-- The `maxsize` of the queue built at line 475: `queue.Queue()`. -/
def taskQueueMaxsize : Nat := 0

/-- Whether a CPython `Queue.put` blocks: only when the queue is bounded
(`0 < maxsize`) and full. -/
def putBlocks (qsize maxsize : Nat) : Bool :=
  decide (0 < maxsize ∧ maxsize ≤ qsize)

/-- `BatchTaskProcessor.add_task` (lines 523–525): a bare `put` on the
processor's queue. -/
def addTask {α : Type} (s : QState α) (t : α) : QState α := qput s t

/-- Whether `add_task` blocks its caller at current queue depth `qsize`. -/
def addTaskBlocks (qsize : Nat) : Bool := putBlocks qsize taskQueueMaxsize

/-- The worker-thread count (lines 478–480): one per configured provider,
capped by `max_workers` when given. -/
def numThreads (numConfigs : Nat) (maxWorkers : Option Nat) : Nat :=
  if numConfigs = 0 then 1
  else match maxWorkers with
    | some m => min numConfigs m
    | none => numConfigs

/-- `BatchTaskProcessor._worker_loop` (lines 494–521) for one worker, run
over the queued tasks; `outcome t = true` means the provider call for `t`
succeeds (no exception and no error-shaped response).  Per task: `get`
removes it; on success `task_done` ends it (`unfinished - 1`) and the loop
continues; on failure the task is `put` back (`+1`), `task_done` (`-1`,
net unchanged) and the loop `break`s.  Returns the final queue state, the
tasks this worker completed, and whether the worker is still live
(`false` = retired by the `break` at line 521). -/
def workerLoop {α : Type} (outcome : α → Bool) :
    List α → Nat → QState α × List α × Bool
  | [], u => (⟨[], u⟩, [], true)
  | t :: rest, u =>
      if outcome t then
        let r := workerLoop outcome rest (u - 1)
        (r.1, t :: r.2.1, r.2.2)
      else (⟨rest ++ [t], u⟩, [], false)

/-- `Queue.join`, hence `wait_and_stop` (lines 527–532), after every worker
thread has exited: no thread can call `task_done` any more, so `join`
returns iff `unfinished_tasks` is already zero. -/
def joinReturnsAfterAllWorkersExited {α : Type} (s : QState α) : Bool :=
  s.unfinished = 0

/-! ## Rate limiter (`src/libs/ai_utils.py`, lines 92–108)

`wait_if_needed(key, interval)`: under the lock, read the provider's last
recorded call time (default `0`), and if less than `interval` has elapsed,
sleep exactly the difference; then record `time.time()` as the new last
time.  Wall-clock instants are modelled as exact rationals and `sleep d`
advances the clock by `d`. -/

/-- Rate-limiter state: the `_last_times` map and the current clock. -/
structure RLState where
  lastTimes : String → Option ℚ
  now : ℚ

/-- `RateLimiter.wait_if_needed` (lines 98–108). -/
def wait_if_needed (key : String) (interval : ℚ) (s : RLState) : RLState :=
  if interval ≤ 0 then s
  else
    let last := (s.lastTimes key).getD 0
    let elapsed := s.now - last
    let now' := if elapsed < interval then s.now + (interval - elapsed) else s.now
    ⟨fun k => if k = key then some now' else s.lastTimes k, now'⟩

/-- A run of consecutive gated calls for one key: before each call the
clock advances by an arbitrary amount (the provider call, callback work,
queue waits), then `wait_if_needed` runs.  Returns the final state and the
recorded call time of each completed gate, oldest first. -/
def rlRun (key : String) (interval : ℚ) : List ℚ → RLState → RLState × List ℚ
  | [], s => (s, [])
  | a :: rest, s =>
      let s' := wait_if_needed key interval ⟨s.lastTimes, s.now + a⟩
      let r := rlRun key interval rest s'
      (r.1, s'.now :: r.2)

/-! ## Repository transaction (`src/libs/git_utils.py`, lines 149–191)

One loop iteration of `git_repo_transaction` observes one of four events:
the iteration raises (`reset_repo`, `action_func` or `push_changes`
throwing — caught at line 187, sleep, retry), `action_func` returns a
falsy commit message (return `True` at line 175, nothing pushed),
`push_changes` succeeds (return `True` at line 182), or the push is
rejected (`push_changes` returns `False`: sleep at line 185 and retry). -/

inductive TxnIter where
  | exn
  | noChange
  | pushOk
  | pushRejected
deriving DecidableEq, Repr

/-- `git_repo_transaction` over the sequence of its iterations' events;
`none` means the trace ended with the loop still running. -/
def gitRepoTransaction : List TxnIter → Option Bool
  | [] => none
  | .exn :: rest => gitRepoTransaction rest
  | .noChange :: _ => some true
  | .pushOk :: _ => some true
  | .pushRejected :: rest => gitRepoTransaction rest

/-- Whether a transaction iteration attempts a publish: `push_changes` is
reached unless the iteration raised before it or the commit message was
falsy. -/
def txnPublishAttempted : TxnIter → Bool
  | .exn => false
  | .noChange => false
  | .pushOk => true
  | .pushRejected => true

/-! ## Helper lemmas -/

/-- `bgtSelect` always reports `found = true`: the fallback branch sets the
flag unconditionally, even when nothing at all was recorded. -/
theorem bgtSelect_found (limit : Int) (files : List JobFile) :
    (bgtSelect limit files).found = true := by
  unfold bgtSelect
  rcases h : bgtScan limit files none with ⟨sel, second⟩
  cases sel <;> simp

/-- Scanning files that all have zero lines finds nothing and leaves the
fallback untouched. -/
theorem bgtScan_all_empty (limit : Int) (files : List JobFile)
    (second : Option (String × Nat × Line)) (h : ∀ f ∈ files, f.2 = []) :
    bgtScan limit files second = (none, second) := by
  induction files generalizing second with
  | nil => rfl
  | cons f rest ih =>
      obtain ⟨name, lines⟩ := f
      have hf : lines = [] := h (name, lines) (List.mem_cons_self _ _)
      subst hf
      simpa [bgtScan, scanLinesBGT] using
        ih second fun g hg => h g (List.mem_cons_of_mem _ hg)

end Bili

namespace Bili

/-! ### Selector scan lemmas -/

/-- A run of non-triggering lines yields no `less_than` selection. -/
theorem scanLinesLT_none (limit : Int) (ls : List Line)
    (h : ∀ x ∈ ls, selLT limit x = false) :
    ∀ i, scanLinesLT limit ls i = none := by
  induction ls with
  | nil => intro i; rfl
  | cons l rest ih =>
      intro i
      cases l with
      | raw s => simpa [selLT] using h (Line.raw s) (List.mem_cons_self _ _)
      | item d =>
          have hd : ¬(d < limit) := by
            simpa [selLT] using h (Line.item d) (List.mem_cons_self _ _)
          simp only [scanLinesLT, if_neg hd]
          exact ih (fun x hx => h x (List.mem_cons_of_mem _ hx)) (i + 1)

/-- The `less_than` inner loop selects the first triggering line. -/
theorem scanLinesLT_first (limit : Int) (ls1 : List Line)
    (h1 : ∀ x ∈ ls1, selLT limit x = false) (l : Line) (hl : selLT limit l = true)
    (ls2 : List Line) :
    ∀ i, scanLinesLT limit (ls1 ++ l :: ls2) i = some (i + ls1.length, l) := by
  induction ls1 with
  | nil =>
      intro i
      cases l with
      | raw s => simp [scanLinesLT]
      | item d =>
          have hd : d < limit := by simpa [selLT] using hl
          simp [scanLinesLT, hd]
  | cons x rest ih =>
      intro i
      cases x with
      | raw s => simpa [selLT] using h1 (Line.raw s) (List.mem_cons_self _ _)
      | item d =>
          have hd : ¬(d < limit) := by
            simpa [selLT] using h1 (Line.item d) (List.mem_cons_self _ _)
          have hrec := ih (fun y hy => h1 y (List.mem_cons_of_mem _ hy)) (i + 1)
          simp only [List.cons_append, scanLinesLT, if_neg hd, List.length_cons]
          rw [show i + (rest.length + 1) = i + 1 + rest.length from by omega]
          exact hrec

/-- Files whose lines never trigger are skipped by the `less_than` scan. -/
theorem lessThanScan_skip (limit : Int) (pre : List JobFile)
    (h : ∀ f ∈ pre, ∀ x ∈ f.2, selLT limit x = false) :
    ∀ rest, lessThanScan limit (pre ++ rest) = lessThanScan limit rest := by
  induction pre with
  | nil => intro rest; rfl
  | cons f pre' ih =>
      intro rest
      obtain ⟨name, lines⟩ := f
      have hnone := scanLinesLT_none limit lines
        (fun x hx => h (name, lines) (List.mem_cons_self _ _) x hx) 0
      simp only [List.cons_append, lessThanScan, hnone]
      exact ih (fun g hg => h g (List.mem_cons_of_mem _ hg)) rest

/-- The `less_than` policy selects the first triggering line in scan
order: files in enumeration order, top to bottom within each file. -/
theorem lessThanScan_first (limit : Int) (pre post : List JobFile) (name : String)
    (ls1 ls2 : List Line) (l : Line)
    (hpre : ∀ f ∈ pre, ∀ x ∈ f.2, selLT limit x = false)
    (hls1 : ∀ x ∈ ls1, selLT limit x = false) (hl : selLT limit l = true) :
    lessThanScan limit (pre ++ (name, ls1 ++ l :: ls2) :: post) =
      some (name, ls1.length, l) := by
  rw [lessThanScan_skip limit pre hpre]
  have hscan := scanLinesLT_first limit ls1 hls1 l hl ls2 0
  simp only [lessThanScan, hscan]
  simp

/-- A run of non-triggering lines yields no `better_greater_than`
selection; an already-recorded fallback is kept unchanged. -/
theorem scanLinesBGT_skip (limit : Int) (name : String) (ls : List Line)
    (h : ∀ x ∈ ls, selBGT limit x = false) :
    ∀ i second, ∃ sec, scanLinesBGT limit name ls i second = (none, sec) ∧
      (second.isSome = true → sec = second) := by
  induction ls with
  | nil => intro i second; exact ⟨second, rfl, fun _ => rfl⟩
  | cons l rest ih =>
      intro i second
      cases l with
      | raw s => simpa [selBGT] using h (Line.raw s) (List.mem_cons_self _ _)
      | item d =>
          have hd : ¬(d > limit) := by
            simpa [selBGT] using h (Line.item d) (List.mem_cons_self _ _)
          obtain ⟨sec, hsec, hkeep⟩ :=
            ih (fun x hx => h x (List.mem_cons_of_mem _ hx)) (i + 1)
              (if second.isSome then second else some (name, i, Line.item d))
          refine ⟨sec, ?_, ?_⟩
          · simp only [scanLinesBGT, if_neg hd]
            exact hsec
          · intro hs
            rw [if_pos hs] at hkeep
            exact hkeep hs

/-- The `better_greater_than` inner loop selects the first triggering
line, whatever fallback state it entered with. -/
theorem scanLinesBGT_first (limit : Int) (name : String) (ls1 : List Line)
    (h1 : ∀ x ∈ ls1, selBGT limit x = false) (l : Line)
    (hl : selBGT limit l = true) (ls2 : List Line) :
    ∀ i second, ∃ sec,
      scanLinesBGT limit name (ls1 ++ l :: ls2) i second =
        (some (name, i + ls1.length, l), sec) := by
  induction ls1 with
  | nil =>
      intro i second
      cases l with
      | raw s => exact ⟨second, by simp [scanLinesBGT]⟩
      | item d =>
          have hd : d > limit := by simpa [selBGT] using hl
          exact ⟨second, by simp [scanLinesBGT, hd]⟩
  | cons x rest ih =>
      intro i second
      cases x with
      | raw s => simpa [selBGT] using h1 (Line.raw s) (List.mem_cons_self _ _)
      | item d =>
          have hd : ¬(d > limit) := by
            simpa [selBGT] using h1 (Line.item d) (List.mem_cons_self _ _)
          obtain ⟨sec, hsec⟩ := ih (fun y hy => h1 y (List.mem_cons_of_mem _ hy))
            (i + 1) (if second.isSome then second else some (name, i, Line.item d))
          refine ⟨sec, ?_⟩
          simp only [List.cons_append, scanLinesBGT, if_neg hd, List.length_cons]
          rw [show i + (rest.length + 1) = i + 1 + rest.length from by omega]
          exact hsec

/-- Files whose lines never trigger are scanned through by the
`better_greater_than` file loop, only possibly recording a fallback; an
already-recorded fallback is kept unchanged. -/
theorem bgtScan_skip (limit : Int) (pre : List JobFile)
    (h : ∀ f ∈ pre, ∀ x ∈ f.2, selBGT limit x = false) :
    ∀ rest second, ∃ sec,
      bgtScan limit (pre ++ rest) second = bgtScan limit rest sec ∧
      (second.isSome = true → sec = second) := by
  induction pre with
  | nil => intro rest second; exact ⟨second, rfl, fun _ => rfl⟩
  | cons f pre' ih =>
      intro rest second
      obtain ⟨name, lines⟩ := f
      obtain ⟨s1, hs1, hk1⟩ := scanLinesBGT_skip limit name lines
        (fun x hx => h (name, lines) (List.mem_cons_self _ _) x hx) 0 second
      obtain ⟨s2, hs2, hk2⟩ := ih (fun g hg => h g (List.mem_cons_of_mem _ hg)) rest s1
      refine ⟨s2, ?_, ?_⟩
      · simp only [List.cons_append, bgtScan, hs1]
        exact hs2
      · intro hsome
        have e1 := hk1 hsome
        rw [e1] at hk2
        exact hk2 hsome

/-- Files with zero lines are scanned through with no effect at all. -/
theorem bgtScan_skipEmpty (limit : Int) (preE : List JobFile)
    (h : ∀ f ∈ preE, f.2 = []) :
    ∀ rest second, bgtScan limit (preE ++ rest) second = bgtScan limit rest second := by
  induction preE with
  | nil => intro rest second; rfl
  | cons f pre' ih =>
      intro rest second
      obtain ⟨name, lines⟩ := f
      have hf : lines = [] := h (name, lines) (List.mem_cons_self _ _)
      subst hf
      simp only [List.cons_append, bgtScan, scanLinesBGT]
      exact ih (fun g hg => h g (List.mem_cons_of_mem _ hg)) rest second

/-- The `better_greater_than` selection returns the first triggering line
in scan order, with the fallback flag clear. -/
theorem bgtSelect_first_hit (limit : Int) (pre post : List JobFile) (name : String)
    (ls1 ls2 : List Line) (l : Line)
    (hpre : ∀ f ∈ pre, ∀ x ∈ f.2, selBGT limit x = false)
    (hls1 : ∀ x ∈ ls1, selBGT limit x = false) (hl : selBGT limit l = true) :
    bgtSelect limit (pre ++ (name, ls1 ++ l :: ls2) :: post) =
      ⟨true, false, some (name, ls1.length, l)⟩ := by
  obtain ⟨s1, hs1, -⟩ := bgtScan_skip limit pre hpre ((name, ls1 ++ l :: ls2) :: post) none
  obtain ⟨s2, hs2⟩ := scanLinesBGT_first limit name ls1 hls1 l hl ls2 0 s1
  unfold bgtSelect
  rw [hs1]
  simp only [bgtScan, hs2]
  simp

/-- When no line anywhere triggers and the first nonempty file starts with
a parsed item, the fallback branch selects that very first item and sets
the fallback flag. -/
theorem bgtSelect_fallback_first (limit : Int) (preE post : List JobFile)
    (name : String) (d : Int) (ls : List Line)
    (hpre : ∀ f ∈ preE, f.2 = [])
    (hd : selBGT limit (Line.item d) = false)
    (hls : ∀ x ∈ ls, selBGT limit x = false)
    (hpost : ∀ f ∈ post, ∀ x ∈ f.2, selBGT limit x = false) :
    bgtSelect limit (preE ++ (name, Line.item d :: ls) :: post) =
      ⟨true, true, some (name, 0, Line.item d)⟩ := by
  have hdn : ¬(d > limit) := by simpa [selBGT] using hd
  obtain ⟨s1, hs1, hk1⟩ :=
    scanLinesBGT_skip limit name ls hls 1 (some (name, 0, Line.item d))
  have e1 : s1 = some (name, 0, Line.item d) := hk1 rfl
  subst e1
  obtain ⟨s2, hs2, hk2⟩ := bgtScan_skip limit post hpost [] (some (name, 0, Line.item d))
  have e2 : s2 = some (name, 0, Line.item d) := hk2 rfl
  subst e2
  rw [List.append_nil] at hs2
  unfold bgtSelect
  rw [bgtScan_skipEmpty limit preE hpre]
  simp only [bgtScan, scanLinesBGT, if_neg hdn, Option.isSome_none, Bool.false_eq_true,
    if_false, hs1, hs2]

/-- Under `better_greater_than` a loop iteration never takes the
not-found break, and the empty break occurs only with no input files. -/
theorem outQueueStepBGT_spec (limit : Int) (files : List JobFile) (pushOk : Bool) :
    outQueueStepBGT limit files pushOk ≠ StepResult.notFoundBreak ∧
    (outQueueStepBGT limit files pushOk = StepResult.emptyBreak → files = []) := by
  by_cases hf : files = []
  · subst hf
    exact ⟨by simp [outQueueStepBGT], fun _ => rfl⟩
  · have hfound := bgtSelect_found limit files
    unfold outQueueStepBGT
    rw [if_neg hf]
    rcases hsel : (bgtSelect limit files).select with _ | sel <;>
      cases pushOk <;> simp [hfound, hsel]

/-! ## Claims C3, C9, C10, C2, C7 -/

/-- C3 (counterexample): with durations `[50, 2000, 10]` and limit `100`,
the first `less_than` selection is the item with duration `50`, not the
claimed item with duration `10`. -/
theorem C3_counterexample :
    lessThanScan 100 [("job", [Line.item 50, Line.item 2000, Line.item 10])] =
      some ("job", 0, Line.item 50) ∧
    Line.item 50 ≠ Line.item 10 := by decide

/-- C3 (amended): the `less_than` selector returns the *first* item with
duration below the limit in scan order, so for durations `[50, 2000, 10]`
with limit `100` it selects `50` first, then (after the removal step) `10`,
and returns none once only `2000` remains. -/
theorem C3_amended_thm :
    lessThanScan 100 [("job", [Line.item 50, Line.item 2000, Line.item 10])] =
      some ("job", 0, Line.item 50) ∧
    removeLineAt [("job", [Line.item 50, Line.item 2000, Line.item 10])] "job" 0 =
      [("job", [Line.item 2000, Line.item 10])] ∧
    lessThanScan 100 [("job", [Line.item 2000, Line.item 10])] =
      some ("job", 1, Line.item 10) ∧
    removeLineAt [("job", [Line.item 2000, Line.item 10])] "job" 1 =
      [("job", [Line.item 2000])] ∧
    lessThanScan 100 [("job", [Line.item 2000])] = none := by decide

/-- C9 (counterexample): with an empty `to_stt` directory the loop breaks
at line 70, `out_queue()` returns Python `None` (falsy), and the
`__main__` guard exits with code `1`, not `0` as claimed. -/
theorem C9_counterexample :
    outQueueStepLT 864000 [] true = StepResult.emptyBreak ∧
    mainExitCode (outQueueReturn StepResult.emptyBreak) = 1 ∧
    (1 : Nat) ≠ 0 := by decide

/-- C9 (amended): the entry point exits `0` exactly when an eligible item
was selected and pushed; an empty queue directory (and likewise an
exhausted queue with no eligible item) exits `1`. -/
theorem C9_amended_thm (files : List JobFile) (pushOk : Bool) :
    (mainExitCode (outQueueReturn (outQueueStepLT 864000 files pushOk)) = 0 ↔
      outQueueStepLT 864000 files pushOk = StepResult.success) ∧
    (files = [] → outQueueStepLT 864000 files pushOk = StepResult.emptyBreak) := by
  constructor
  · rcases h : outQueueStepLT 864000 files pushOk with _ | _ | _ | _ <;>
      simp [mainExitCode, outQueueReturn]
  · intro h
    simp [outQueueStepLT, h]

/-- C9 (witness). -/
theorem C9_witness :
    (mainExitCode (outQueueReturn (outQueueStepLT 864000 [] true)) = 0 ↔
      outQueueStepLT 864000 [] true = StepResult.success) ∧
    outQueueStepLT 864000 ([] : List JobFile) true = StepResult.emptyBreak :=
  ⟨(C9_amended_thm [] true).1, (C9_amended_thm [] true).2 rfl⟩

/-- C10: when `to_stt` holds only job files with zero lines, the
`better_greater_than` fallback still sets `found` while `select_file` is
the empty-string sentinel, the removal step then raises (caught at
line 183), and the loop sleeps and retries the same state forever: no
iteration count ever makes `out_queue` return. -/
theorem C10_thm (limit : Int) (files : List JobFile) (pushOk : Bool)
    (hne : files ≠ []) (hempty : ∀ f ∈ files, f.2 = []) :
    bgtSelect limit files = ⟨true, true, none⟩ ∧
    outQueueStepBGT limit files pushOk = StepResult.retry ∧
    ∀ n, outQueueLoopBGT limit files pushOk n = none := by
  have hsel : bgtSelect limit files = ⟨true, true, none⟩ := by
    unfold bgtSelect
    rw [bgtScan_all_empty limit files none hempty]
  have hstep : outQueueStepBGT limit files pushOk = StepResult.retry := by
    unfold outQueueStepBGT
    rw [if_neg hne, hsel]
    rfl
  refine ⟨hsel, hstep, ?_⟩
  intro n
  induction n with
  | zero => rfl
  | succ n ih => simpa [outQueueLoopBGT, hstep] using ih

/-- C10 (witness). -/
theorem C10_witness :
    (([("a", []), ("b", [])] : List JobFile) ≠ []) ∧
    (∀ f ∈ ([("a", []), ("b", [])] : List JobFile), f.2 = []) ∧
    bgtSelect 100 [("a", []), ("b", [])] = ⟨true, true, none⟩ ∧
    outQueueStepBGT 100 [("a", []), ("b", [])] true = StepResult.retry ∧
    outQueueLoopBGT 100 [("a", []), ("b", [])] true 7 = none := by
  have h := C10_thm 100 [("a", []), ("b", [])] true (by decide) (by decide)
  exact ⟨by decide, by decide, h.1, h.2.1, h.2.2 7⟩

/-- C2 (counterexample): the processor's queue is `queue.Queue()` with the
default `maxsize = 0`, so with two configured providers a third `add_task`
neither blocks nor is bounded by the provider count: the depth reaches
`3 > numThreads 2`. -/
theorem C2_counterexample :
    taskQueueMaxsize = 0 ∧
    addTaskBlocks 2 = false ∧
    (addTask (addTask (addTask (⟨[], 0⟩ : QState Nat) 1) 2) 3).queue.length = 3 ∧
    numThreads 2 none = 2 ∧
    ¬(3 ≤ numThreads 2 none) := by decide

/-- C2 (amended): `add_task` never blocks at any queue depth (the queue is
unbounded), and each call grows the depth by one, so the depth is not
bounded by the provider count. -/
theorem C2_amended_thm :
    (∀ qsize, addTaskBlocks qsize = false) ∧
    (∀ (α : Type) (s : QState α) (t : α),
      (addTask s t).queue.length = s.queue.length + 1) := by
  constructor
  · intro qsize
    simp [addTaskBlocks, putBlocks, taskQueueMaxsize]
  · intro α s t
    simp [addTask, qput]

/-- C7: a falsy commit message returns success with no publish attempted;
whenever `git_repo_transaction` returns at all it returns `True` (a
rejected publish is never surfaced as an error — the iteration retries
instead). -/
theorem C7_thm :
    (∀ rest, gitRepoTransaction (TxnIter.noChange :: rest) = some true) ∧
    txnPublishAttempted TxnIter.noChange = false ∧
    (∀ trace b, gitRepoTransaction trace = some b → b = true) ∧
    (∀ rest, gitRepoTransaction (TxnIter.pushRejected :: rest) =
      gitRepoTransaction rest) := by
  refine ⟨fun rest => rfl, rfl, ?_, fun rest => rfl⟩
  intro trace
  induction trace with
  | nil => intro b h; cases h
  | cons e rest ih =>
      intro b h
      cases e with
      | exn => exact ih b h
      | noChange => cases h; rfl
      | pushOk => cases h; rfl
      | pushRejected => exact ih b h

/-- C7 (witness). -/
theorem C7_witness :
    gitRepoTransaction [TxnIter.pushRejected, TxnIter.noChange] = some true ∧
    true = true :=
  ⟨(C7_thm.2.2.2 [TxnIter.noChange]).trans (C7_thm.1 []),
    C7_thm.2.2.1 [TxnIter.noChange] true (C7_thm.1 [])⟩

/-! ## Claims C1, C4 (worker loop and `wait_and_stop`) -/

/-- The unfinished-task counter tracks the queue depth across a worker's
run: every queued task was counted by its `put`, a success removes one
item and one count, and a failure re-queues the item with a `put`/
`task_done` pair that leaves the count unchanged. -/
theorem workerLoop_unfinished {α : Type} (outcome : α → Bool) (tasks : List α)
    (u : Nat) (h : u = tasks.length) :
    (workerLoop outcome tasks u).1.unfinished =
      (workerLoop outcome tasks u).1.queue.length := by
  induction tasks generalizing u with
  | nil => subst h; simp [workerLoop]
  | cons t rest ih =>
      subst h
      by_cases ho : outcome t
      · simpa [workerLoop, ho] using ih rest.length rfl
      · simp [workerLoop, ho]

/-- C4: a worker that retires has completed some prefix of successes, then
failed on one task; that task is pushed back onto the shared queue as the
very same tuple, and the loop body is never entered again (the worker's
processed list ends at the failure and the function returns). -/
theorem C4_thm {α : Type} (outcome : α → Bool) (tasks : List α) (u : Nat)
    (hfail : (workerLoop outcome tasks u).2.2 = false) :
    ∃ t rest,
      tasks = (workerLoop outcome tasks u).2.1 ++ t :: rest ∧
      outcome t = false ∧
      (∀ p ∈ (workerLoop outcome tasks u).2.1, outcome p = true) ∧
      (workerLoop outcome tasks u).1.queue = rest ++ [t] := by
  induction tasks generalizing u with
  | nil => simp [workerLoop] at hfail
  | cons t rest ih =>
      by_cases ho : outcome t
      · simp only [workerLoop, ho, if_pos] at hfail ⊢
        obtain ⟨t', rest', h1, h2, h3, h4⟩ := ih (u - 1) hfail
        refine ⟨t', rest', ?_, h2, ?_, h4⟩
        · rw [List.cons_append]
          exact congrArg (List.cons t) h1
        · intro p hp
          rcases List.mem_cons.mp hp with hp | hp
          · subst hp; exact ho
          · exact h3 p hp
      · refine ⟨t, rest, ?_, ?_, ?_, ?_⟩ <;> simp [workerLoop, ho]

/-- C4 (witness). -/
theorem C4_witness :
    ((workerLoop (fun n => n == 0) [0, 1] 2).2.2 = false) ∧
    ∃ t rest,
      [0, 1] = (workerLoop (fun n => n == 0) [0, 1] 2).2.1 ++ t :: rest ∧
      (fun n => n == 0) t = false ∧
      (∀ p ∈ (workerLoop (fun n => n == 0) [0, 1] 2).2.1,
        (fun n => n == 0) p = true) ∧
      (workerLoop (fun n => n == 0) [0, 1] 2).1.queue = rest ++ [t] :=
  ⟨by decide, C4_thm (fun n => n == 0) [0, 1] 2 (by decide)⟩

/-- C1 (counterexample): a run with one provider worker, two queued tasks
(`unfinished_tasks = 2`) and a failing provider: the worker re-queues the
failed task and retires, tasks `[1, 0]` remain queued, and the
`task_queue.join()` inside `wait_and_stop` never returns because the
unfinished count is stuck at `2`. -/
theorem C1_counterexample :
    workerLoop (fun _ => false) [0, 1] 2 = (⟨[1, 0], 2⟩, [], false) ∧
    (⟨[1, 0], 2⟩ : QState Nat).queue ≠ [] ∧
    joinReturnsAfterAllWorkersExited (⟨[1, 0], 2⟩ : QState Nat) = false := by
  decide

/-- C1 (amended): whenever every worker has retired while tasks are still
queued, `wait_and_stop` blocks forever instead of returning: the
re-queued failure keeps `unfinished_tasks` equal to the queue depth, which
is nonzero, so `task_queue.join()` never completes; the leftover tasks sit
in the queue and are never reported. -/
theorem C1_amended_thm {α : Type} (outcome : α → Bool) (tasks : List α)
    (_hretired : (workerLoop outcome tasks tasks.length).2.2 = false)
    (hqueue : (workerLoop outcome tasks tasks.length).1.queue ≠ []) :
    (workerLoop outcome tasks tasks.length).1.unfinished =
      (workerLoop outcome tasks tasks.length).1.queue.length ∧
    joinReturnsAfterAllWorkersExited (workerLoop outcome tasks tasks.length).1 =
      false := by
  have hinv := workerLoop_unfinished outcome tasks tasks.length rfl
  refine ⟨hinv, ?_⟩
  have hne : (workerLoop outcome tasks tasks.length).1.unfinished ≠ 0 := by
    rw [hinv]
    simpa using hqueue
  simp [joinReturnsAfterAllWorkersExited, hne]

/-- C1 (witness for the amended theorem). -/
theorem C1_amended_witness :
    ((workerLoop (fun _ => false) [5, 7] 2).2.2 = false) ∧
    ((workerLoop (fun _ => false) [5, 7] 2).1.queue ≠ []) ∧
    (workerLoop (fun _ => false) [5, 7] 2).1.unfinished =
      (workerLoop (fun _ => false) [5, 7] 2).1.queue.length ∧
    joinReturnsAfterAllWorkersExited (workerLoop (fun _ => false) [5, 7] 2).1 =
      false :=
  ⟨by decide, by decide,
    (C1_amended_thm (fun _ => false) [5, 7] (by decide) (by decide)).1,
    (C1_amended_thm (fun _ => false) [5, 7] (by decide) (by decide)).2⟩

/-! ## Claim C8 (rate limiter) -/

/-- One gated call with a positive interval records the moment it
completes, and that moment is at least `interval` after the previously
recorded time for the key (`0` when the key is fresh). -/
theorem wait_if_needed_spec (key : String) (interval : ℚ) (s : RLState)
    (hpos : 0 < interval) :
    (wait_if_needed key interval s).lastTimes key =
      some (wait_if_needed key interval s).now ∧
    (s.lastTimes key).getD 0 + interval ≤ (wait_if_needed key interval s).now := by
  simp only [wait_if_needed, if_neg (not_le.mpr hpos)]
  refine ⟨by simp, ?_⟩
  split_ifs with h
  · linarith
  · linarith [not_lt.mp h]

/-- C8: along any run of consecutive gated calls for one key, with
arbitrary clock advances between calls, consecutive recorded completion
times are never less than the (positive) interval apart; moreover the
first recorded time is at least `interval` after any previously recorded
time for that key. -/
theorem C8_thm (key : String) (interval : ℚ) (advances : List ℚ) (s : RLState)
    (hpos : 0 < interval) :
    List.Chain' (fun a b => a + interval ≤ b) (rlRun key interval advances s).2 ∧
    ∀ t0, s.lastTimes key = some t0 →
      ∀ t1 ∈ (rlRun key interval advances s).2.head?, t0 + interval ≤ t1 := by
  induction advances generalizing s with
  | nil => simp [rlRun]
  | cons a rest ih =>
      have hspec := wait_if_needed_spec key interval ⟨s.lastTimes, s.now + a⟩ hpos
      obtain ⟨ihChain, ihHead⟩ :=
        ih (wait_if_needed key interval ⟨s.lastTimes, s.now + a⟩)
      simp only [rlRun]
      constructor
      · rw [List.chain'_cons']
        exact ⟨ihHead _ hspec.1, ihChain⟩
      · intro t0 ht0 t1 ht1
        simp only [List.head?_cons, Option.mem_def, Option.some.injEq] at ht1
        subst ht1
        have h2 := hspec.2
        rw [show (⟨s.lastTimes, s.now + a⟩ : RLState).lastTimes = s.lastTimes from rfl,
          ht0] at h2
        simpa using h2

/-- C8 (witness): key `"p"`, interval `2`, three consecutive calls. -/
theorem C8_witness :
    (0 : ℚ) < 2 ∧
    List.Chain' (fun a b => a + 2 ≤ b)
      (rlRun "p" 2 [0, 0, 0] ⟨fun _ => none, 0⟩).2 :=
  ⟨by norm_num, (C8_thm "p" 2 [0, 0, 0] ⟨fun _ => none, 0⟩ (by norm_num)).1⟩

/-! ## Claims C5, C6 (selector policies) -/

/-- C5 (counterexample): an unparsable line is *not* selected regardless
of the position of other items: under `less_than` with limit `100`, an
item with duration `50` placed before the non-JSON line is selected
instead. -/
theorem C5_counterexample :
    lessThanScan 100 [("f", [Line.item 50, Line.raw "oops"])] =
      some ("f", 0, Line.item 50) ∧
    Line.item 50 ≠ Line.raw "oops" := by decide

/-- C5 (amended): an unparsable line is unconditionally eligible under
both policies and short-circuits the scan the moment it is reached: it is
selected whenever every line before it in scan order fails to trigger that
policy, regardless of those lines' durations. -/
theorem C5_amended_thm (limit : Int) (pre post : List JobFile) (name : String)
    (ls1 ls2 : List Line) (s : String) :
    ((∀ f ∈ pre, ∀ x ∈ f.2, selLT limit x = false) →
      (∀ x ∈ ls1, selLT limit x = false) →
      lessThanScan limit (pre ++ (name, ls1 ++ Line.raw s :: ls2) :: post) =
        some (name, ls1.length, Line.raw s)) ∧
    ((∀ f ∈ pre, ∀ x ∈ f.2, selBGT limit x = false) →
      (∀ x ∈ ls1, selBGT limit x = false) →
      bgtSelect limit (pre ++ (name, ls1 ++ Line.raw s :: ls2) :: post) =
        ⟨true, false, some (name, ls1.length, Line.raw s)⟩) :=
  ⟨fun hpre hls1 =>
      lessThanScan_first limit pre post name ls1 ls2 (Line.raw s) hpre hls1 rfl,
   fun hpre hls1 =>
      bgtSelect_first_hit limit pre post name ls1 ls2 (Line.raw s) hpre hls1 rfl⟩

/-- C5 (witness): items of duration exactly `100` before the raw line
trigger neither policy with limit `100`, so the raw line is selected. -/
theorem C5_witness :
    lessThanScan 100
      ([("p", [Line.item 100])] ++ ("f", [Line.item 100] ++ Line.raw "x" :: []) :: []) =
      some ("f", 1, Line.raw "x") ∧
    bgtSelect 100
      ([("p", [Line.item 100])] ++ ("f", [Line.item 100] ++ Line.raw "x" :: []) :: []) =
      ⟨true, false, some ("f", 1, Line.raw "x")⟩ :=
  ⟨(C5_amended_thm 100 [("p", [Line.item 100])] [] "f" [Line.item 100] [] "x").1
      (by decide) (by decide),
   (C5_amended_thm 100 [("p", [Line.item 100])] [] "f" [Line.item 100] [] "x").2
      (by decide) (by decide)⟩

/-- C6: `better_greater_than` selects the first line in scan order with
duration strictly above the limit (or an unparsable line); when no line
triggers, the fallback returns the first eligible item of the scan
whatever its duration (for durations `[50, 30]` with limit `100` it is the
item with duration `50`); and an iteration reports "none" only when the
directory holds no input files at all. -/
theorem C6_thm :
    (∀ (limit : Int) (pre post : List JobFile) (name : String)
        (ls1 ls2 : List Line) (l : Line),
      (∀ f ∈ pre, ∀ x ∈ f.2, selBGT limit x = false) →
      (∀ x ∈ ls1, selBGT limit x = false) →
      selBGT limit l = true →
      bgtSelect limit (pre ++ (name, ls1 ++ l :: ls2) :: post) =
        ⟨true, false, some (name, ls1.length, l)⟩) ∧
    (∀ (limit : Int) (preE post : List JobFile) (name : String) (d : Int)
        (ls : List Line),
      (∀ f ∈ preE, f.2 = []) →
      selBGT limit (Line.item d) = false →
      (∀ x ∈ ls, selBGT limit x = false) →
      (∀ f ∈ post, ∀ x ∈ f.2, selBGT limit x = false) →
      bgtSelect limit (preE ++ (name, Line.item d :: ls) :: post) =
        ⟨true, true, some (name, 0, Line.item d)⟩) ∧
    bgtSelect 100 [("f", [Line.item 50, Line.item 30])] =
      ⟨true, true, some ("f", 0, Line.item 50)⟩ ∧
    (∀ (limit : Int) (files : List JobFile) (pushOk : Bool),
      outQueueStepBGT limit files pushOk ≠ StepResult.notFoundBreak ∧
      (outQueueStepBGT limit files pushOk = StepResult.emptyBreak → files = [])) :=
  ⟨fun limit pre post name ls1 ls2 l hpre hls1 hl =>
      bgtSelect_first_hit limit pre post name ls1 ls2 l hpre hls1 hl,
   fun limit preE post name d ls hpre hd hls hpost =>
      bgtSelect_fallback_first limit preE post name d ls hpre hd hls hpost,
   by decide,
   fun limit files pushOk => outQueueStepBGT_spec limit files pushOk⟩

/-- C6 (witness): a first-hit instance and a fallback instance. -/
theorem C6_witness :
    bgtSelect 100
      ([("p", [Line.item 20])] ++ ("f", [Line.item 30] ++ Line.item 500 :: []) :: []) =
      ⟨true, false, some ("f", 1, Line.item 500)⟩ ∧
    bgtSelect 100 ([("e", [])] ++ ("g", Line.item 40 :: [Line.item 60]) :: []) =
      ⟨true, true, some ("g", 0, Line.item 40)⟩ :=
  ⟨C6_thm.1 100 [("p", [Line.item 20])] [] "f" [Line.item 30] [] (Line.item 500)
      (by decide) (by decide) (by decide),
   C6_thm.2.1 100 [("e", [])] [] "g" 40 [Line.item 60]
      (by decide) (by decide) (by decide) (by decide)⟩

end Bili
